import Mathlib

/-!
Verification of the ccart cyclone-impact-modeling core: track encoding
(src/scripts/refine_analogs_pca.py, encode_track), density clustering
(src/scripts/cluster_tracks.py, cluster_tracks_by_path), analog refinement
(src/scripts/refine_analogs_pca.py, refine_bhola_analogs) and scenario
synthesis (src/scripts/apply_climate_modifiers.py, apply_climate_modifiers).

Modelling conventions:
* Floating-point data is modelled with exact rationals; the claims under
  study are dataflow and ordering properties, not rounding properties.
* An xarray.Dataset track is modelled as a record of its data variables
  (optional ones as Option) plus an association list for attrs, matching
  Python dict semantics (update in place, insert at the end).
* Raised Python exceptions are modelled with the Except monad.  The error
  kinds are the ones the specification assigns to the failure conditions
  (its section 7 taxonomy over the underlying numpy and sklearn
  ValueErrors, which the spec defines abstractly since the repository
  declares no exception classes of its own).
-/

/-- A metadata value held in a track's attrs mapping. -/
inductive AttrVal where
  | str (s : String)
  | int (n : ℤ)
  | bool (b : Bool)
deriving DecidableEq

/-- One storm track: the xarray.Dataset fields the scripts touch.
lat, lon, max_sustained_wind and times are the mandatory time-aligned
variables; central_pressure, radius_max_wind, environmental_pressure and
basin are optional; attrs is the metadata dictionary. -/
structure Track where
  times : List ℚ
  lat : List ℚ
  lon : List ℚ
  max_sustained_wind : List ℚ
  central_pressure : Option (List ℚ)
  radius_max_wind : Option (List ℚ)
  environmental_pressure : Option (List ℚ)
  basin : Option (List String)
  attrs : List (String × AttrVal)
deriving DecidableEq

/-- Dictionary lookup in an attrs mapping (Python d[k] / d.get(k)). -/
def getAttr : List (String × AttrVal) → String → Option AttrVal
  | [], _ => none
  | p :: rest, k => if p.1 = k then some p.2 else getAttr rest k

/-- Dictionary assignment d[k] = v: replace the existing entry in place,
or append a new one at the end (Python dict insertion-order semantics). -/
def setAttr : List (String × AttrVal) → String → AttrVal → List (String × AttrVal)
  | [], k, v => [(k, v)]
  | p :: rest, k, v => if p.1 = k then (k, v) :: rest else p :: setAttr rest k v

/-- Python str() of an attrs value, as used by f-string interpolation. -/
def attrText : AttrVal → String
  | .str s => s
  | .int n => toString n
  | .bool b => if b then "True" else "False"

/-- track.attrs.get('sid', 'N/A') interpolated into the synthetic id
(apply_climate_modifiers.py line 27). -/
def sidText (t : Track) : String :=
  match getAttr t.attrs ("sid") with
  | some v => attrText v
  | none => "N/A"

/-- The scenario string f"Wind x{wind_boost}, RMW x{rmw_shrink}"
(apply_climate_modifiers.py line 28); the numeric rendering stands in for
Python float formatting. -/
def scenarioText (wind_boost rmw_shrink : ℚ) : String :=
  "Wind x" ++ toString wind_boost ++ ", RMW x" ++ toString rmw_shrink

/-- apply_climate_modifiers (src/scripts/apply_climate_modifiers.py):
deep-copy the track, scale max_sustained_wind by wind_boost, scale
radius_max_wind (if present) by rmw_shrink, overwrite central_pressure
(if present) with 1000 - new_wind * 0.5, and tag sid, scenario,
orig_event_flag and category in attrs.  The function performs no
validation of the factors. -/
def apply_climate_modifiers (track : Track) (wind_boost rmw_shrink : ℚ) : Track :=
  let wind2 := track.max_sustained_wind.map (fun w => w * wind_boost)
  { times := track.times
    lat := track.lat
    lon := track.lon
    max_sustained_wind := wind2
    central_pressure := track.central_pressure.map
      (fun _ => wind2.map (fun w => 1000 - w * (1/2)))
    radius_max_wind := track.radius_max_wind.map (fun r => r.map (fun x => x * rmw_shrink))
    environmental_pressure := track.environmental_pressure
    basin := track.basin
    attrs :=
      setAttr (setAttr (setAttr (setAttr track.attrs
        ("sid") (.str ("SYNTH_" ++ sidText track ++ "_WARMED")))
        ("scenario") (.str (scenarioText wind_boost rmw_shrink)))
        ("orig_event_flag") (.bool false))
        ("category") (.int 5) }

/-- A concrete Bhola-like track used as a test vector. -/
def bholaTrack : Track :=
  { times := [0, 1]
    lat := [20, 22]
    lon := [90, 91]
    max_sustained_wind := [100, 90]
    central_pressure := some [980, 985]
    radius_max_wind := some [30, 32]
    environmental_pressure := none
    basin := some ["NI", "NI"]
    attrs := [("sid", .str ("1970BOB")), ("name", .str ("BHOLA")),
              ("orig_event_flag", .bool true)] }

lemma getAttr_setAttr_self (a : List (String × AttrVal)) (k : String) (v : AttrVal) :
    getAttr (setAttr a k v) k = some v := by
  induction a with
  | nil => simp [setAttr, getAttr]
  | cons p rest ih =>
    by_cases h : p.1 = k
    · simp [setAttr, h, getAttr]
    · simp [setAttr, h, getAttr, ih]

lemma getAttr_setAttr_ne (a : List (String × AttrVal)) (k k2 : String) (v : AttrVal)
    (h : k2 ≠ k) : getAttr (setAttr a k v) k2 = getAttr a k2 := by
  have hk2 : ¬ (k = k2) := fun hh => h hh.symm
  induction a with
  | nil => simp [setAttr, getAttr, hk2]
  | cons p rest ih =>
    by_cases h1 : p.1 = k
    · have hp2 : ¬ (p.1 = k2) := fun hh => h (hh.symm.trans h1)
      simp [setAttr, getAttr, h1, hk2, hp2]
    · simp [setAttr, getAttr, h1, ih]

/-- Claim C2: for every track and positive factors, the synthetic
max_sustained_wind is the elementwise product of the original with
wind_boost, and when the source track has a central_pressure field the new
central_pressure is pointwise 1000 minus half the new (already boosted)
max_sustained_wind. -/
theorem synth_wind_and_pressure (t : Track) (b s : ℚ) (hb : 0 < b) (hs : 0 < s) :
    (apply_climate_modifiers t b s).max_sustained_wind =
      t.max_sustained_wind.map (fun w => w * b) ∧
    (∀ cp, t.central_pressure = some cp →
      (apply_climate_modifiers t b s).central_pressure =
        some ((apply_climate_modifiers t b s).max_sustained_wind.map
          (fun w => 1000 - w * (1/2)))) := by
  refine ⟨rfl, ?_⟩
  intro cp hcp
  simp [apply_climate_modifiers, hcp]

/-- Witness for C2 at the concrete Bhola track with factors 1.15 and 0.85. -/
theorem synth_wind_and_pressure_witness :
    (0 : ℚ) < 23/20 ∧
    (apply_climate_modifiers bholaTrack (23/20) (17/20)).max_sustained_wind =
      bholaTrack.max_sustained_wind.map (fun w => w * (23/20)) :=
  ⟨by norm_num,
   (synth_wind_and_pressure bholaTrack (23/20) (17/20) (by norm_num) (by norm_num)).1⟩

/-- Claim C4, counterexample: synthesize with factors (1, 1) does not leave
central_pressure bit-for-bit equal: on a track whose central pressure is
[980, 985] with winds [100, 90] the field is overwritten with the
parametric values [950, 955]. -/
theorem synth_identity_counterexample :
    (apply_climate_modifiers bholaTrack 1 1).central_pressure ≠
      bholaTrack.central_pressure := by
  norm_num [apply_climate_modifiers, bholaTrack]

/-- Claim C4, amended: synthesize(t, 1, 1) preserves times, lat, lon,
max_sustained_wind and radius_max_wind bit-for-bit, but central_pressure
(when present) is recomputed as 1000 minus half the wind rather than
preserved; orig_event_flag is set to false and the id and scenario
metadata are rewritten. -/
theorem synth_identity_fields (t : Track) :
    (apply_climate_modifiers t 1 1).times = t.times ∧
    (apply_climate_modifiers t 1 1).lat = t.lat ∧
    (apply_climate_modifiers t 1 1).lon = t.lon ∧
    (apply_climate_modifiers t 1 1).max_sustained_wind = t.max_sustained_wind ∧
    (apply_climate_modifiers t 1 1).radius_max_wind = t.radius_max_wind ∧
    (apply_climate_modifiers t 1 1).central_pressure =
      t.central_pressure.map (fun _ => t.max_sustained_wind.map (fun w => 1000 - w * (1/2))) ∧
    getAttr (apply_climate_modifiers t 1 1).attrs ("orig_event_flag") = some (.bool false) ∧
    getAttr (apply_climate_modifiers t 1 1).attrs ("sid") =
      some (.str ("SYNTH_" ++ sidText t ++ "_WARMED")) ∧
    getAttr (apply_climate_modifiers t 1 1).attrs ("scenario") =
      some (.str (scenarioText 1 1)) := by
  refine ⟨rfl, rfl, rfl, ?_, ?_, ?_, ?_, ?_, ?_⟩
  · simp [apply_climate_modifiers]
  · simp [apply_climate_modifiers]
  · simp [apply_climate_modifiers]
  · simp only [apply_climate_modifiers]
    rw [getAttr_setAttr_ne _ _ _ _ (by decide), getAttr_setAttr_self]
  · simp only [apply_climate_modifiers]
    rw [getAttr_setAttr_ne _ _ _ _ (by decide), getAttr_setAttr_ne _ _ _ _ (by decide),
        getAttr_setAttr_ne _ _ _ _ (by decide), getAttr_setAttr_self]
  · simp only [apply_climate_modifiers]
    rw [getAttr_setAttr_ne _ _ _ _ (by decide), getAttr_setAttr_ne _ _ _ _ (by decide),
        getAttr_setAttr_self]

/-- Claim C5, counterexample: a non-positive wind_boost is not rejected;
apply_climate_modifiers silently returns a track whose winds are scaled by
the non-positive factor (here zeroed out). -/
theorem no_factor_validation_counterexample :
    (apply_climate_modifiers bholaTrack 0 (17/20)).max_sustained_wind = [0, 0] ∧
    (apply_climate_modifiers bholaTrack 0 (17/20)).radius_max_wind =
      some [51/2, 136/5] := by
  norm_num [apply_climate_modifiers, bholaTrack]

/-- Claim C5, amended: synthesize performs no validation of its factors:
even when wind_boost or rmw_shrink is non-positive it succeeds and scales
the wind and radius fields by the given factors. -/
theorem no_factor_validation (t : Track) (b s : ℚ) (h : b ≤ 0 ∨ s ≤ 0) :
    (apply_climate_modifiers t b s).max_sustained_wind =
      t.max_sustained_wind.map (fun w => w * b) ∧
    (apply_climate_modifiers t b s).radius_max_wind =
      t.radius_max_wind.map (fun r => r.map (fun x => x * s)) :=
  ⟨rfl, rfl⟩

/-- Witness for the amended C5 at wind_boost = 0. -/
theorem no_factor_validation_witness :
    ((0 : ℚ) ≤ 0 ∨ (17/20 : ℚ) ≤ 0) ∧
    (apply_climate_modifiers bholaTrack 0 (17/20)).max_sustained_wind =
      bholaTrack.max_sustained_wind.map (fun w => w * 0) :=
  ⟨Or.inl le_rfl, (no_factor_validation bholaTrack 0 (17/20) (Or.inl le_rfl)).1⟩

/-- Claim C7: synthesis is a pure function of its input (the embedding is a
function, and the input track is a value that is never mutated); every
field other than max_sustained_wind, radius_max_wind, central_pressure and
the rewritten metadata keys sid, scenario, orig_event_flag and category is
copied unchanged into the synthetic track. -/
theorem synth_frame_condition (t : Track) (b s : ℚ) (hb : 0 < b) (hs : 0 < s) :
    (apply_climate_modifiers t b s).times = t.times ∧
    (apply_climate_modifiers t b s).lat = t.lat ∧
    (apply_climate_modifiers t b s).lon = t.lon ∧
    (apply_climate_modifiers t b s).basin = t.basin ∧
    (apply_climate_modifiers t b s).environmental_pressure = t.environmental_pressure ∧
    ∀ k, k ≠ "sid" → k ≠ "scenario" → k ≠ "orig_event_flag" → k ≠ "category" →
      getAttr (apply_climate_modifiers t b s).attrs k = getAttr t.attrs k := by
  refine ⟨rfl, rfl, rfl, rfl, rfl, ?_⟩
  intro k h1 h2 h3 h4
  simp only [apply_climate_modifiers]
  rw [getAttr_setAttr_ne _ _ _ _ h4, getAttr_setAttr_ne _ _ _ _ h3,
      getAttr_setAttr_ne _ _ _ _ h2, getAttr_setAttr_ne _ _ _ _ h1]

/-- Witness for C7: the unrelated attrs key "name" and the basin field
survive synthesis of the concrete Bhola track unchanged. -/
theorem synth_frame_condition_witness :
    (0 : ℚ) < 2 ∧
    (apply_climate_modifiers bholaTrack 2 1).basin = bholaTrack.basin ∧
    getAttr (apply_climate_modifiers bholaTrack 2 1).attrs ("name") =
      getAttr bholaTrack.attrs ("name") :=
  ⟨by norm_num,
   (synth_frame_condition bholaTrack 2 1 (by norm_num) (by norm_num)).2.2.2.1,
   (synth_frame_condition bholaTrack 2 1 (by norm_num) (by norm_num)).2.2.2.2.2
     ("name") (by decide) (by decide) (by decide) (by decide)⟩

/-- Claim C10: when the attrs mapping has no sid key, synthesis succeeds
(the function is total) and the synthetic id is literally
"SYNTH_N/A_WARMED". -/
theorem missing_sid_default (t : Track) (b s : ℚ)
    (h : getAttr t.attrs ("sid") = none) :
    getAttr (apply_climate_modifiers t b s).attrs ("sid") =
      some (.str ("SYNTH_N/A_WARMED")) := by
  have hsid : sidText t = "N/A" := by simp [sidText, h]
  simp only [apply_climate_modifiers]
  rw [getAttr_setAttr_ne _ _ _ _ (by decide), getAttr_setAttr_ne _ _ _ _ (by decide),
      getAttr_setAttr_ne _ _ _ _ (by decide), getAttr_setAttr_self, hsid]
  rfl

/-- A track carrying no sid attribute. -/
def anonTrack : Track :=
  { times := [0]
    lat := [10]
    lon := [80]
    max_sustained_wind := [40]
    central_pressure := none
    radius_max_wind := none
    environmental_pressure := none
    basin := none
    attrs := [("name", .str ("UNNAMED"))] }

/-- Witness for C10 at a concrete track without a sid attribute. -/
theorem missing_sid_default_witness :
    getAttr anonTrack.attrs ("sid") = none ∧
    getAttr (apply_climate_modifiers anonTrack (23/20) (17/20)).attrs ("sid") =
      some (.str ("SYNTH_N/A_WARMED")) :=
  ⟨by decide, missing_sid_default anonTrack (23/20) (17/20) (by decide)⟩

/-- np.linspace(0, 1, n): n evenly spaced samples from 0 to 1 (a single
sample is 0, matching numpy). -/
def linspace01 (n : ℕ) : List ℚ :=
  if n = 1 then [0] else (List.range n).map (fun (i : ℕ) => (i : ℚ) / ((n : ℚ) - 1))

/-- Linear-interpolation scan of np.interp past the first sample point:
walk the remaining (xp, fp) pairs; interpolate inside the first bracketing
interval, and clamp to the last fp beyond the right end. -/
def interpFrom (x x0 y0 : ℚ) : List (ℚ × ℚ) → ℚ
  | [] => y0
  | (x1, y1) :: rest =>
    if x ≤ x1 then y0 + (y1 - y0) * (x - x0) / (x1 - x0) else interpFrom x x1 y1 rest

/-- np.interp(x, xp, fp) on the zipped sample points, for increasing xp:
clamp to fp[0] left of the first sample, else scan.  The empty case is
unreachable in encode_track (np.interp raises on an empty xp first). -/
def npInterp (x : ℚ) : List (ℚ × ℚ) → ℚ
  | [] => 0
  | (x0, y0) :: rest => if x ≤ x0 then y0 else interpFrom x x0 y0 rest

/-- One np.interp call of encode_track: resample vals onto n_points
positions of the normalized arc axis. -/
def resample (vals : List ℚ) (n_points : ℕ) : List ℚ :=
  (linspace01 n_points).map (fun x => npInterp x ((linspace01 vals.length).zip vals))

/-- Failure kinds of the core, following the specification's section 7
taxonomy for the underlying numpy/sklearn errors: validationError for
malformed input data, configError for an unsatisfiable request (empty
target cluster), indexError for out-of-range track indexing. -/
inductive CoreError where
  | validationError
  | configError
  | indexError
deriving DecidableEq

/-- encode_track (src/scripts/refine_analogs_pca.py lines 5-11): resample
lat and lon onto n_points arc positions and concatenate.  np.interp raises
(a ValueError, the spec's validation kind) exactly when the sample-point
array - lat first, then lon - is empty; mismatched lat/lon lengths are
interpolated independently and do not fail. -/
def encode_track (t : Track) (n_points : ℕ) : Except CoreError (List ℚ) :=
  if t.lat = [] then .error .validationError
  else if t.lon = [] then .error .validationError
  else .ok (resample t.lat n_points ++ resample t.lon n_points)

lemma linspace01_length (n : ℕ) : (linspace01 n).length = n := by
  by_cases h : n = 1
  · rw [linspace01, if_pos h, h]
    rfl
  · rw [linspace01, if_neg h, List.length_map, List.length_range]

lemma resample_length (vals : List ℚ) (n : ℕ) : (resample vals n).length = n := by
  simp [resample, linspace01_length]

/-- Claim C6, amended: encode fails (with the validation error kind) iff
lat or lon is empty; whenever both are non-empty - even with different
lengths - it succeeds with a vector of length exactly 2 * n_points. -/
theorem encode_validation_and_length (t : Track) (n_points : ℕ) :
    (encode_track t n_points = .error .validationError ↔ (t.lat = [] ∨ t.lon = [])) ∧
    (t.lat ≠ [] → t.lon ≠ [] →
      encode_track t n_points = .ok (resample t.lat n_points ++ resample t.lon n_points) ∧
      (resample t.lat n_points ++ resample t.lon n_points).length = 2 * n_points) := by
  constructor
  · constructor
    · intro h
      by_cases h1 : t.lat = []
      · exact Or.inl h1
      · by_cases h2 : t.lon = []
        · exact Or.inr h2
        · rw [encode_track, if_neg h1, if_neg h2] at h
          exact absurd h (by simp)
    · intro h
      rcases h with h | h
      · rw [encode_track, if_pos h]
      · by_cases h1 : t.lat = []
        · rw [encode_track, if_pos h1]
        · rw [encode_track, if_neg h1, if_pos h]
  · intro h1 h2
    refine ⟨by rw [encode_track, if_neg h1, if_neg h2], ?_⟩
    simp [resample_length]
    ring

/-- A track whose lat and lon sequences have different lengths. -/
def mismatchTrack : Track :=
  { times := [0]
    lat := [0]
    lon := [1, 2]
    max_sustained_wind := [60]
    central_pressure := none
    radius_max_wind := none
    environmental_pressure := none
    basin := none
    attrs := [] }

/-- Claim C6, counterexample: on a track with lat of length 1 and lon of
length 2 encode does not fail; it returns the interpolated vector
[0, 0, 0, 1, 3/2, 2] of length 2 * 3. -/
theorem encode_mismatch_counterexample :
    mismatchTrack.lat.length ≠ mismatchTrack.lon.length ∧
    encode_track mismatchTrack 3 = .ok [0, 0, 0, 1, 3/2, 2] := by
  constructor
  · decide
  · show encode_track mismatchTrack 3 = .ok [0, 0, 0, 1, 3/2, 2]
    rw [encode_track, if_neg (by decide), if_neg (by decide)]
    norm_num [mismatchTrack, resample, linspace01, List.range_succ, npInterp, interpFrom]

/-- Witness for the amended C6: a well-formed two-point track encodes to a
vector of length 2 * 5. -/
theorem encode_validation_and_length_witness :
    encode_track bholaTrack 5 =
      .ok (resample bholaTrack.lat 5 ++ resample bholaTrack.lon 5) ∧
    (resample bholaTrack.lat 5 ++ resample bholaTrack.lon 5).length = 2 * 5 :=
  (encode_validation_and_length bholaTrack 5).2 (by decide) (by decide)

/-- Dot product of two equal-length rational vectors. -/
def dotQ (v w : List ℚ) : ℚ := ((v.zip w).map (fun p => p.1 * p.2)).sum

/-- Squared norm of a projected vector, with sklearn's normalize
convention: a zero norm is replaced by 1 so that a zero vector keeps
similarity 0 instead of dividing by zero. -/
def normSq1 (v : List ℚ) : ℚ := if dotQ v v = 0 then 1 else dotQ v v

/-- Similarity sort key of track index i against the centroid.  The cosine
similarity computed by sklearn is dot(c, v) / (norm(c) * norm(v)); for the
purpose of np.argsort only the ordering matters, the positive constant
factor norm(c) can be dropped, and t maps to t * abs t being strictly
increasing makes a * abs a / normSq equal in ordering to a / sqrt normSq.
This keeps the embedding exactly rational while inducing the same
permutation as the float cosine similarities. -/
def simScores (centroid : List ℚ) (reduced : List (List ℚ)) (i : ℕ) : ℚ :=
  dotQ centroid (reduced.getD i []) * |dotQ centroid (reduced.getD i [])| /
    normSq1 (reduced.getD i [])

/-- Insert index i into an ascending run, after every index whose key is
less than or equal (the stable placement numpy's argsort produces on
small arrays). -/
def insertAsc (f : ℕ → ℚ) (i : ℕ) : List ℕ → List ℕ
  | [] => [i]
  | j :: rest => if f j ≤ f i then j :: insertAsc f i rest else i :: j :: rest

/-- Tail of np.argsort: fold the still-unsorted indices into the sorted
accumulator. -/
def argsortAux (f : ℕ → ℚ) : List ℕ → List ℕ → List ℕ
  | [], acc => acc
  | i :: rest, acc => argsortAux f rest (insertAsc f i acc)

/-- np.argsort over the index list: ascending by key, ties by ascending
index (stable; numpy's default sort is stable on arrays below its
insertion-sort threshold and ascending-by-index tie order is the
deterministic behaviour the spec relies on). -/
def argsortAsc (f : ℕ → ℚ) (l : List ℕ) : List ℕ := argsortAux f l []

/-- The Python slice arr[-k:]: the whole list when k = 0, otherwise the
last min(k, length) elements. -/
def lastSlice (l : List ℕ) (k : ℕ) : List ℕ := if k = 0 then l else l.drop (l.length - k)

/-- np.mean(vectors, axis=0) of a non-empty list of equal-length vectors:
elementwise sum divided by the count. -/
def meanVec : List (List ℚ) → List ℚ
  | [] => []
  | v :: rest =>
    (rest.foldl (fun acc w => acc.zipWith (fun a b => a + b) w) v).map
      (fun a => a / ((rest.length : ℚ) + 1))

/-- [i for i, label in enumerate(labels) if label == target_cluster]
(refine_analogs_pca.py line 32). -/
def clusterIndices (labels : List ℤ) (target_cluster : ℤ) : List ℕ :=
  (List.range labels.length).filter (fun i => decide (labels.getD i 0 = target_cluster))

/-- The encoded vector of one track with the call-site default
n_points = 20 (refine_analogs_pca.py line 27). -/
def encBody (t : Track) : List ℚ := resample t.lat 20 ++ resample t.lon 20

/-- The list comprehension [encode_track(t) for t in tracks]: the first
raised error propagates. -/
def encodeAll : List Track → Except CoreError (List (List ℚ))
  | [] => .ok []
  | t :: ts =>
    match encode_track t 20 with
    | .error e => .error e
    | .ok v =>
      match encodeAll ts with
      | .error e => .error e
      | .ok vs => .ok (v :: vs)

/-- The all-fields-empty track, used as the (never reached) default of
in-range list indexing. -/
def emptyTrack : Track :=
  { times := [], lat := [], lon := [], max_sustained_wind := [],
    central_pressure := none, radius_max_wind := none,
    environmental_pressure := none, basin := none, attrs := [] }

/-- The refinement steps past encoding and projection
(refine_analogs_pca.py lines 32-39): target-cluster indices, centroid,
similarity ranking, Python slice [-top_n:].  An empty cluster propagates
as the spec's configError kind: np.mean of an empty list yields NaN and
sklearn's cosine_similarity input check raises.  Out-of-range list
indexing (labels longer than the collection) is the indexError kind. -/
def refineCore (tracks : List Track) (labels : List ℤ) (target_cluster : ℤ) (top_n : ℕ)
    (reduced : List (List ℚ)) : Except CoreError (List Track) :=
  let ci := clusterIndices labels target_cluster
  if ci = [] then .error .configError
  else if ci.any (fun i => decide (reduced.length ≤ i)) then .error .indexError
  else
    let centroid := meanVec (ci.map (fun i => reduced.getD i []))
    let tops := lastSlice (argsortAsc (simScores centroid reduced)
      (List.range reduced.length)) top_n
    if tops.any (fun i => decide (tracks.length ≤ i)) then .error .indexError
    else .ok (tops.map (fun i => tracks.getD i emptyTrack))

/-- refine_bhola_analogs (src/scripts/refine_analogs_pca.py lines 13-41).
The PCA projection is the spec's pluggable DimensionalityReduction
capability (an external sklearn collaborator), passed in as fitTransform.
Steps, as in the source: encode every track (with the call-site default
n_points = 20), project the encoded matrix, then run the refinement core
on the projected vectors. -/
def refine_bhola_analogs (fitTransform : List (List ℚ) → List (List ℚ)) (tracks : List Track)
    (labels : List ℤ) (target_cluster : ℤ) (top_n : ℕ) : Except CoreError (List Track) :=
  match encodeAll tracks with
  | .error e => .error e
  | .ok encoded => refineCore tracks labels target_cluster top_n (fitTransform encoded)

/-- The projected matrix of the refine call, for stating theorems about
its internals. -/
def reducedOf (fitTransform : List (List ℚ) → List (List ℚ)) (tracks : List Track) :
    List (List ℚ) := fitTransform (tracks.map encBody)

/-- The target-cluster centroid of the refine call. -/
def centroidOf (fitTransform : List (List ℚ) → List (List ℚ)) (tracks : List Track)
    (labels : List ℤ) (target_cluster : ℤ) : List ℚ :=
  meanVec ((clusterIndices labels target_cluster).map
    (fun i => (reducedOf fitTransform tracks).getD i []))

/-- The full ascending similarity ranking of the refine call. -/
def rankedOf (fitTransform : List (List ℚ) → List (List ℚ)) (tracks : List Track)
    (labels : List ℤ) (target_cluster : ℤ) : List ℕ :=
  argsortAsc (simScores (centroidOf fitTransform tracks labels target_cluster)
    (reducedOf fitTransform tracks)) (List.range (reducedOf fitTransform tracks).length)

lemma mem_insertAsc (f : ℕ → ℚ) (i x : ℕ) (l : List ℕ) :
    x ∈ insertAsc f i l ↔ x = i ∨ x ∈ l := by
  induction l with
  | nil => simp [insertAsc]
  | cons j rest ih =>
    by_cases h : f j ≤ f i
    · simp only [insertAsc, if_pos h, List.mem_cons, ih]
      tauto
    · simp only [insertAsc, if_neg h, List.mem_cons]

lemma insertAsc_perm (f : ℕ → ℚ) (i : ℕ) (l : List ℕ) :
    (insertAsc f i l).Perm (i :: l) := by
  induction l with
  | nil => exact List.Perm.refl _
  | cons j rest ih =>
    by_cases h : f j ≤ f i
    · rw [insertAsc, if_pos h]
      exact (ih.cons j).trans (List.Perm.swap i j rest)
    · rw [insertAsc, if_neg h]

lemma argsortAux_perm (f : ℕ → ℚ) : ∀ (l acc : List ℕ), (argsortAux f l acc).Perm (l ++ acc)
  | [], acc => by simp [argsortAux]
  | i :: rest, acc => by
    rw [argsortAux]
    refine (argsortAux_perm f rest (insertAsc f i acc)).trans ?_
    refine (List.Perm.append_left rest (insertAsc_perm f i acc)).trans ?_
    exact List.perm_middle

lemma argsortAsc_perm (f : ℕ → ℚ) (l : List ℕ) : (argsortAsc f l).Perm l := by
  have h := argsortAux_perm f l []
  rwa [List.append_nil] at h

/-- The order produced by a stable ascending argsort: keys ascend, and
equal keys keep ascending index order. -/
def SortKey (f : ℕ → ℚ) (a b : ℕ) : Prop := f a ≤ f b ∧ (f b ≤ f a → a < b)

lemma pairwise_insertAsc (f : ℕ → ℚ) (i : ℕ) (l : List ℕ)
    (hl : l.Pairwise (SortKey f)) (hlt : ∀ a ∈ l, a < i) :
    (insertAsc f i l).Pairwise (SortKey f) := by
  induction l with
  | nil => simp [insertAsc]
  | cons j rest ih =>
    rcases List.pairwise_cons.mp hl with ⟨hj, hrest⟩
    by_cases h : f j ≤ f i
    · rw [insertAsc, if_pos h]
      refine List.pairwise_cons.mpr ⟨?_, ih hrest (fun a ha => hlt a (by simp [ha]))⟩
      intro k hk
      rcases (mem_insertAsc f i k rest).mp hk with rfl | hk2
      · exact ⟨h, fun _ => hlt j (List.mem_cons_self j rest)⟩
      · exact hj k hk2
    · rw [insertAsc, if_neg h]
      refine List.pairwise_cons.mpr ⟨?_, hl⟩
      intro k hk
      rcases List.mem_cons.mp hk with rfl | hk2
      · exact ⟨le_of_lt (lt_of_not_le h), fun hh => absurd hh h⟩
      · refine ⟨le_trans (le_of_lt (lt_of_not_le h)) (hj k hk2).1, ?_⟩
        intro hh
        exact absurd (le_trans (hj k hk2).1 hh) h

lemma pairwise_argsortAux (f : ℕ → ℚ) :
    ∀ (l acc : List ℕ), l.Pairwise (· < ·) → acc.Pairwise (SortKey f) →
      (∀ a ∈ acc, ∀ b ∈ l, a < b) → (argsortAux f l acc).Pairwise (SortKey f)
  | [], acc, _, hacc, _ => by rwa [argsortAux]
  | i :: rest, acc, hl, hacc, hcross => by
    rw [argsortAux]
    refine pairwise_argsortAux f rest (insertAsc f i acc) (List.pairwise_cons.mp hl).2
      (pairwise_insertAsc f i acc hacc (fun a ha => hcross a ha i (by simp))) ?_
    intro a ha b hb
    rcases (mem_insertAsc f i a acc).mp ha with rfl | ha2
    · exact (List.pairwise_cons.mp hl).1 b hb
    · exact hcross a ha2 b (by simp [hb])

lemma pairwise_argsortAsc (f : ℕ → ℚ) (n : ℕ) :
    (argsortAsc f (List.range n)).Pairwise (SortKey f) :=
  pairwise_argsortAux f (List.range n) [] (List.pairwise_lt_range n) (by simp) (by simp)

lemma map_getD_range {α : Type} (l : List α) (d : α) :
    (List.range l.length).map (fun i => l.getD i d) = l := by
  induction l with
  | nil => rfl
  | cons a t ih =>
    rw [List.length_cons, List.range_succ_eq_map, List.map_cons, List.map_map]
    have h2 : ((fun i => (a :: t).getD i d) ∘ Nat.succ) = (fun i => t.getD i d) := by
      funext i
      simp [Nat.succ_eq_add_one, List.getD_cons_succ]
    rw [h2, ih, List.getD_cons_zero]

lemma encodeAll_ok (ts : List Track) (h : ∀ t ∈ ts, t.lat ≠ [] ∧ t.lon ≠ []) :
    encodeAll ts = .ok (ts.map encBody) := by
  induction ts with
  | nil => rfl
  | cons t ts ih =>
    have ht := h t (List.mem_cons_self t ts)
    have h1 : encode_track t 20 = .ok (encBody t) := by
      rw [encode_track, if_neg ht.1, if_neg ht.2]
      rfl
    simp only [encodeAll, h1, ih (fun x hx => h x (List.mem_cons_of_mem t hx)), List.map_cons]

lemma refine_ok (ft : List (List ℚ) → List (List ℚ)) (tracks : List Track)
    (labels : List ℤ) (tc : ℤ) (top_n : ℕ)
    (hft : ∀ x, (ft x).length = x.length)
    (hvalid : ∀ t ∈ tracks, t.lat ≠ [] ∧ t.lon ≠ [])
    (hlen : labels.length = tracks.length)
    (hne : ∃ i, i < labels.length ∧ labels.getD i 0 = tc) :
    refine_bhola_analogs ft tracks labels tc top_n =
      .ok ((lastSlice (rankedOf ft tracks labels tc) top_n).map
        (fun i => tracks.getD i emptyTrack)) := by
  have hred : (reducedOf ft tracks).length = tracks.length := by
    rw [reducedOf, hft, List.length_map]
  obtain ⟨i0, hi0, hli⟩ := hne
  have hmem : i0 ∈ clusterIndices labels tc := by
    rw [clusterIndices, List.mem_filter]
    refine ⟨List.mem_range.mpr hi0, ?_⟩
    simp only [decide_eq_true_eq]
    exact hli
  have hci : clusterIndices labels tc ≠ [] := by
    intro h
    rw [h] at hmem
    exact List.not_mem_nil i0 hmem
  have hciLT : ∀ i ∈ clusterIndices labels tc, i < (reducedOf ft tracks).length := by
    intro i hi
    rw [clusterIndices, List.mem_filter, List.mem_range] at hi
    rw [hred, ← hlen]
    exact hi.1
  have hb1 : (clusterIndices labels tc).any
      (fun i => decide ((reducedOf ft tracks).length ≤ i)) = false := by
    rw [Bool.eq_false_iff, Ne, List.any_eq_true]
    rintro ⟨i, hi, hdec⟩
    simp only [decide_eq_true_eq] at hdec
    exact absurd hdec (Nat.not_le.mpr (hciLT i hi))
  have hRankMem : ∀ i ∈ rankedOf ft tracks labels tc, i < tracks.length := by
    intro i hi
    have h2 := (argsortAsc_perm _ _).mem_iff.mp hi
    rw [List.mem_range, hred] at h2
    exact h2
  have hb2 : (lastSlice (rankedOf ft tracks labels tc) top_n).any
      (fun i => decide (tracks.length ≤ i)) = false := by
    rw [Bool.eq_false_iff, Ne, List.any_eq_true]
    rintro ⟨i, hi, hdec⟩
    simp only [decide_eq_true_eq] at hdec
    have hmem2 : i ∈ rankedOf ft tracks labels tc := by
      by_cases h0 : top_n = 0
      · rw [lastSlice, if_pos h0] at hi
        exact hi
      · rw [lastSlice, if_neg h0] at hi
        exact List.drop_subset _ _ hi
    exact absurd hdec (Nat.not_le.mpr (hRankMem i hmem2))
  have hrdef : argsortAsc (simScores (meanVec ((clusterIndices labels tc).map
      (fun i => (reducedOf ft tracks).getD i []))) (reducedOf ft tracks))
      (List.range (reducedOf ft tracks).length) = rankedOf ft tracks labels tc := rfl
  rw [refine_bhola_analogs, encodeAll_ok tracks hvalid]
  show refineCore tracks labels tc top_n (reducedOf ft tracks) = _
  simp only [refineCore]
  rw [if_neg hci, hb1]
  simp only [Bool.false_eq_true, if_false]
  rw [hrdef, hb2]
  simp only [Bool.false_eq_true, if_false]

/-- Claim C3: if zero tracks carry the requested target_cluster label,
refine fails - the error (np.mean of the empty list gives NaN, which
sklearn's cosine_similarity input validation rejects) propagates to the
caller as the spec's configError kind with no fallback result. -/
theorem refine_empty_cluster_error (ft : List (List ℚ) → List (List ℚ))
    (tracks : List Track) (labels : List ℤ) (tc : ℤ) (top_n : ℕ)
    (hvalid : ∀ t ∈ tracks, t.lat ≠ [] ∧ t.lon ≠ [])
    (hnone : ∀ i, i < labels.length → labels.getD i 0 ≠ tc) :
    refine_bhola_analogs ft tracks labels tc top_n = .error .configError := by
  rw [refine_bhola_analogs, encodeAll_ok tracks hvalid]
  show refineCore tracks labels tc top_n (ft (tracks.map encBody)) = _
  have hci : clusterIndices labels tc = [] := by
    rw [clusterIndices, List.filter_eq_nil_iff]
    intro i hi
    simp only [decide_eq_true_eq]
    exact hnone i (List.mem_range.mp hi)
  simp [refineCore, hci]

/-- The identity projection: a degenerate but contract-conforming
DimensionalityReduction capability, usable as a concrete instance. -/
def idProj (rows : List (List ℚ)) : List (List ℚ) := rows

/-- Witness for C3: one valid track, label list [0], requested cluster 7:
refine fails with the configError kind. -/
theorem refine_empty_cluster_error_witness :
    refine_bhola_analogs idProj [bholaTrack] [0] 7 5 = .error .configError :=
  refine_empty_cluster_error idProj [bholaTrack] [0] 7 5 (by decide) (by decide)

/-- Claim C8: with a non-empty target cluster and top_n exceeding the
collection size, refine does not fail: the Python slice
np.argsort(similarities)[-top_n:] clamps to the whole index range, so the
full collection is returned (as a permutation of the input tracks, in
ranking order). -/
theorem refine_clamps_topn (ft : List (List ℚ) → List (List ℚ)) (tracks : List Track)
    (labels : List ℤ) (tc : ℤ) (top_n : ℕ)
    (hft : ∀ x, (ft x).length = x.length)
    (hvalid : ∀ t ∈ tracks, t.lat ≠ [] ∧ t.lon ≠ [])
    (hlen : labels.length = tracks.length)
    (hne : ∃ i, i < labels.length ∧ labels.getD i 0 = tc)
    (htop : tracks.length < top_n) :
    ∃ res, refine_bhola_analogs ft tracks labels tc top_n = .ok res ∧ res.Perm tracks := by
  have hred : (reducedOf ft tracks).length = tracks.length := by
    rw [reducedOf, hft, List.length_map]
  have hrlen : (rankedOf ft tracks labels tc).length = tracks.length := by
    rw [rankedOf, (argsortAsc_perm _ _).length_eq, List.length_range, hred]
  have hslice : lastSlice (rankedOf ft tracks labels tc) top_n =
      rankedOf ft tracks labels tc := by
    rw [lastSlice, if_neg (by omega : top_n ≠ 0), hrlen,
      Nat.sub_eq_zero_of_le (le_of_lt htop), List.drop_zero]
  refine ⟨_, refine_ok ft tracks labels tc top_n hft hvalid hlen hne, ?_⟩
  rw [hslice]
  have hperm : (rankedOf ft tracks labels tc).Perm (List.range tracks.length) := by
    rw [rankedOf, hred]
    exact argsortAsc_perm _ _
  refine (hperm.map _).trans ?_
  rw [map_getD_range]

/-- Witness for C8: two tracks, both in cluster 0, top_n = 5 > 2. -/
theorem refine_clamps_topn_witness :
    ∃ res, refine_bhola_analogs idProj [bholaTrack, anonTrack] [0, 0] 0 5 = .ok res ∧
      res.Perm [bholaTrack, anonTrack] :=
  refine_clamps_topn idProj [bholaTrack, anonTrack] [0, 0] 0 5
    (fun x => rfl) (by decide) (by decide) ⟨0, by decide, by decide⟩ (by decide)

/-- Claim C1, amended: the list refine returns is the tracks at exactly
the last min(top_n, n) positions of the stable ascending argsort of the
cosine similarities over the whole collection (the top-similarity subset,
since every index left out of that slice scores no higher than every index
kept) - i.e. sorted in ASCENDING order of similarity to the target
centroid (most similar analog last, not first), ties in ascending original
index - and it carries the resolved tracks only, not (index, score)
pairs. -/
theorem refine_ranking_ascending (ft : List (List ℚ) → List (List ℚ)) (tracks : List Track)
    (labels : List ℤ) (tc : ℤ) (top_n : ℕ)
    (hft : ∀ x, (ft x).length = x.length)
    (hvalid : ∀ t ∈ tracks, t.lat ≠ [] ∧ t.lon ≠ [])
    (hlen : labels.length = tracks.length)
    (hne : ∃ i, i < labels.length ∧ labels.getD i 0 = tc)
    (htn : 1 ≤ top_n) :
    refine_bhola_analogs ft tracks labels tc top_n =
      .ok ((lastSlice (rankedOf ft tracks labels tc) top_n).map
        (fun i => tracks.getD i emptyTrack)) ∧
    (lastSlice (rankedOf ft tracks labels tc) top_n).length = min top_n tracks.length ∧
    (lastSlice (rankedOf ft tracks labels tc) top_n).Pairwise
      (SortKey (simScores (centroidOf ft tracks labels tc) (reducedOf ft tracks))) ∧
    (∀ a ∈ rankedOf ft tracks labels tc,
      a ∉ lastSlice (rankedOf ft tracks labels tc) top_n →
      ∀ b ∈ lastSlice (rankedOf ft tracks labels tc) top_n,
        simScores (centroidOf ft tracks labels tc) (reducedOf ft tracks) a ≤
          simScores (centroidOf ft tracks labels tc) (reducedOf ft tracks) b) := by
  have hred : (reducedOf ft tracks).length = tracks.length := by
    rw [reducedOf, hft, List.length_map]
  have hrlen : (rankedOf ft tracks labels tc).length = tracks.length := by
    rw [rankedOf, (argsortAsc_perm _ _).length_eq, List.length_range, hred]
  have hp : (rankedOf ft tracks labels tc).Pairwise
      (SortKey (simScores (centroidOf ft tracks labels tc) (reducedOf ft tracks))) := by
    rw [rankedOf]
    exact pairwise_argsortAsc _ _
  have hslice : lastSlice (rankedOf ft tracks labels tc) top_n =
      (rankedOf ft tracks labels tc).drop ((rankedOf ft tracks labels tc).length - top_n) := by
    rw [lastSlice, if_neg (by omega : top_n ≠ 0)]
  refine ⟨refine_ok ft tracks labels tc top_n hft hvalid hlen hne, ?_, ?_, ?_⟩
  · rw [hslice, List.length_drop, hrlen]
    omega
  · rw [hslice]
    exact List.Pairwise.sublist (List.drop_sublist _ _) hp
  · intro a ha hnot b hb
    rw [hslice] at hnot hb
    have hsplit := List.take_append_drop ((rankedOf ft tracks labels tc).length - top_n)
      (rankedOf ft tracks labels tc)
    have h2 := hp
    rw [← hsplit, List.pairwise_append] at h2
    have ha2 : a ∈ (rankedOf ft tracks labels tc).take
          ((rankedOf ft tracks labels tc).length - top_n) ++
        (rankedOf ft tracks labels tc).drop
          ((rankedOf ft tracks labels tc).length - top_n) := by
      rw [hsplit]
      exact ha
    rcases List.mem_append.mp ha2 with h1 | h1
    · exact (h2.2.2 a h1 b hb).1
    · exact absurd h1 hnot

/-- Witness for the amended C1 on a concrete two-track collection: the
refine output is the map over the last slice of the ascending ranking, of
the clamped length. -/
theorem refine_ranking_ascending_witness :
    refine_bhola_analogs idProj [bholaTrack, anonTrack] [0, 0] 0 1 =
      .ok ((lastSlice (rankedOf idProj [bholaTrack, anonTrack] [0, 0] 0) 1).map
        (fun i => [bholaTrack, anonTrack].getD i emptyTrack)) ∧
    (lastSlice (rankedOf idProj [bholaTrack, anonTrack] [0, 0] 0) 1).length =
      min 1 [bholaTrack, anonTrack].length :=
  ⟨(refine_ranking_ascending idProj [bholaTrack, anonTrack] [0, 0] 0 1
      (fun x => rfl) (by decide) (by decide) ⟨0, by decide, by decide⟩ le_rfl).1,
   (refine_ranking_ascending idProj [bholaTrack, anonTrack] [0, 0] 0 1
      (fun x => rfl) (by decide) (by decide) ⟨0, by decide, by decide⟩ le_rfl).2.1⟩

/-- A rank-2 coordinate projection (first encoded latitude sample and
first encoded longitude sample): a concrete DimensionalityReduction
instance with which the ranking direction is visible on paper. -/
def projTwo (rows : List (List ℚ)) : List (List ℚ) :=
  rows.map (fun r => [r.headD 0, (r.drop 20).headD 0])

/-- A one-point track at lat 1, lon 0. -/
def trackA : Track :=
  { times := [0], lat := [1], lon := [0], max_sustained_wind := [50],
    central_pressure := none, radius_max_wind := none,
    environmental_pressure := none, basin := none, attrs := [("sid", .str ("A"))] }

/-- A one-point track at lat 1, lon 1. -/
def trackB : Track :=
  { times := [0], lat := [1], lon := [1], max_sustained_wind := [60],
    central_pressure := none, radius_max_wind := none,
    environmental_pressure := none, basin := none, attrs := [("sid", .str ("B"))] }

lemma npInterp_single (x c : ℚ) : npInterp x [(0, c)] = c := by
  show (if x ≤ (0 : ℚ) then c else interpFrom x 0 c []) = c
  split
  · rfl
  · rfl

lemma resample_single (c : ℚ) (n : ℕ) : resample [c] n = List.replicate n c := by
  rw [resample]
  have h1 : linspace01 (List.length [c]) = [0] := by
    rw [List.length_singleton, linspace01, if_pos rfl]
  rw [h1]
  show (linspace01 n).map (fun x => npInterp x [(0, c)]) = _
  simp only [npInterp_single]
  rw [List.map_const', linspace01_length]

lemma encBody_trackA : encBody trackA = List.replicate 20 1 ++ List.replicate 20 0 := by
  rw [encBody]
  show resample [1] 20 ++ resample [0] 20 = _
  rw [resample_single, resample_single]

lemma encBody_trackB : encBody trackB = List.replicate 20 1 ++ List.replicate 20 1 := by
  rw [encBody]
  show resample [1] 20 ++ resample [1] 20 = _
  rw [resample_single]

lemma headD_rep_append (n : ℕ) (c d : ℚ) (l : List ℚ) (hn : n ≠ 0) :
    (List.replicate n c ++ l).headD d = c := by
  cases n with
  | zero => exact absurd rfl hn
  | succ m => rw [List.replicate_succ]; rfl

lemma headD_rep (n : ℕ) (c d : ℚ) (hn : n ≠ 0) : (List.replicate n c).headD d = c := by
  cases n with
  | zero => exact absurd rfl hn
  | succ m => rw [List.replicate_succ]; rfl

lemma drop_rep_append (n : ℕ) (c : ℚ) (l : List ℚ) :
    (List.replicate n c ++ l).drop n = l := by
  have h := List.drop_left (List.replicate n c) l
  rwa [List.length_replicate] at h

lemma reducedAB : reducedOf projTwo [trackA, trackB] = [[1, 0], [1, 1]] := by
  have h20 : (20 : ℕ) ≠ 0 := by decide
  rw [reducedOf, List.map_cons, List.map_cons, List.map_nil, encBody_trackA, encBody_trackB,
    projTwo, List.map_cons, List.map_cons, List.map_nil]
  rw [drop_rep_append, drop_rep_append,
    headD_rep_append _ _ _ _ h20, headD_rep _ _ _ h20,
    headD_rep_append _ _ _ _ h20, headD_rep _ _ _ h20]

lemma ciAB : clusterIndices [0, 0] 0 = [0, 1] := by decide

lemma centroidAB : centroidOf projTwo [trackA, trackB] [0, 0] 0 = [1, 1/2] := by
  rw [centroidOf, ciAB, reducedAB]
  show meanVec [[1, 0], [1, 1]] = [1, 1/2]
  norm_num [meanVec, List.zipWith, List.foldl]

lemma scoreA : simScores [1, 1/2] [[1, 0], [1, 1]] 0 = 1 := by
  rw [simScores]
  show dotQ [1, 1/2] [1, 0] * |dotQ [1, 1/2] [1, 0]| / normSq1 [1, 0] = 1
  have h1 : dotQ [1, 1/2] [1, 0] = 1 := by norm_num [dotQ, List.zip, List.zipWith]
  have h2 : normSq1 [1, 0] = 1 := by norm_num [normSq1, dotQ, List.zip, List.zipWith]
  rw [h1, h2, abs_one]
  norm_num

lemma scoreB : simScores [1, 1/2] [[1, 0], [1, 1]] 1 = 9/8 := by
  rw [simScores]
  show dotQ [1, 1/2] [1, 1] * |dotQ [1, 1/2] [1, 1]| / normSq1 [1, 1] = 9/8
  have h1 : dotQ [1, 1/2] [1, 1] = 3/2 := by norm_num [dotQ, List.zip, List.zipWith]
  have h2 : normSq1 [1, 1] = 2 := by norm_num [normSq1, dotQ, List.zip, List.zipWith]
  rw [h1, h2, abs_of_pos (by norm_num : (0 : ℚ) < 3/2)]
  norm_num

lemma rankedAB : rankedOf projTwo [trackA, trackB] [0, 0] 0 = [0, 1] := by
  rw [rankedOf, reducedAB, centroidAB]
  show argsortAsc (simScores [1, 1/2] [[1, 0], [1, 1]]) [0, 1] = [0, 1]
  rw [argsortAsc, argsortAux, argsortAux, argsortAux]
  show insertAsc (simScores [1, 1/2] [[1, 0], [1, 1]]) 1 [0] = [0, 1]
  rw [insertAsc, if_pos (by rw [scoreA, scoreB]; norm_num), insertAsc]

/-- Claim C1, counterexample: on two tracks with distinct similarities to
the shared-cluster centroid and top_n = 2, refine returns [trackA, trackB]
although trackA's similarity is strictly below trackB's: the output is in
ascending, not descending, similarity order, and no (index, score) pairs
are returned - only the tracks. -/
theorem refine_descending_counterexample :
    refine_bhola_analogs projTwo [trackA, trackB] [0, 0] 0 2 = .ok [trackA, trackB] ∧
    simScores (centroidOf projTwo [trackA, trackB] [0, 0] 0)
        (reducedOf projTwo [trackA, trackB]) 0 <
      simScores (centroidOf projTwo [trackA, trackB] [0, 0] 0)
        (reducedOf projTwo [trackA, trackB]) 1 := by
  constructor
  · have h1 := refine_ok projTwo [trackA, trackB] [0, 0] 0 2
      (fun x => by rw [projTwo, List.length_map]) (by decide) (by decide)
      ⟨0, by decide, by decide⟩
    rw [h1, rankedAB]
    rfl
  · rw [centroidAB, reducedAB, scoreA, scoreB]
    norm_num

/-- Squared euclidean distance between two mean-position features. -/
def sqDistQ (p q : ℚ × ℚ) : ℚ := (p.1 - q.1) ^ 2 + (p.2 - q.2) ^ 2

/-- np.mean of a coordinate sequence (exact rational mean). -/
def qMean (l : List ℚ) : ℚ := l.sum / (l.length : ℚ)

/-- The per-track feature [np.mean(lat), np.mean(lon)]
(cluster_tracks.py lines 17-21). -/
def trackFeature (t : Track) : ℚ × ℚ := (qMean t.lat, qMean t.lon)

/-- One expansion step of density reachability: add every point of the
universe adjacent to the current set. -/
def expandF (univ : Finset ℕ) (adj : ℕ → ℕ → Bool) (s : Finset ℕ) : Finset ℕ :=
  univ.filter (fun j => j ∈ s ∨ ∃ i ∈ s, adj i j = true)

/-- The connected component of i under the adjacency relation, computed as
the fixpoint of expansion (reached after at most card univ steps). -/
def compF (univ : Finset ℕ) (adj : ℕ → ℕ → Bool) (i : ℕ) : Finset ℕ :=
  (fun s => expandF univ adj s)^[univ.card] {i}

lemma expandF_subset_univ (univ : Finset ℕ) (adj : ℕ → ℕ → Bool) (s : Finset ℕ) :
    expandF univ adj s ⊆ univ := Finset.filter_subset _ _

lemma subset_expandF (univ : Finset ℕ) (adj : ℕ → ℕ → Bool) {s : Finset ℕ}
    (hs : s ⊆ univ) : s ⊆ expandF univ adj s := by
  intro j hj
  rw [expandF, Finset.mem_filter]
  exact ⟨hs hj, Or.inl hj⟩

lemma expandF_mono (univ : Finset ℕ) (adj : ℕ → ℕ → Bool) {s t : Finset ℕ}
    (h : s ⊆ t) : expandF univ adj s ⊆ expandF univ adj t := by
  intro j hj
  rw [expandF, Finset.mem_filter] at hj ⊢
  refine ⟨hj.1, ?_⟩
  rcases hj.2 with h1 | ⟨i, hi, h2⟩
  · exact Or.inl (h h1)
  · exact Or.inr ⟨i, h hi, h2⟩

lemma iterate_expandF_subset_univ (univ : Finset ℕ) (adj : ℕ → ℕ → Bool) (i : ℕ)
    (hi : i ∈ univ) : ∀ k, (fun s => expandF univ adj s)^[k] {i} ⊆ univ := by
  intro k
  cases k with
  | zero => simpa using hi
  | succ m =>
    rw [Function.iterate_succ_apply']
    exact expandF_subset_univ univ adj _

lemma iterate_expandF_succ_supset (univ : Finset ℕ) (adj : ℕ → ℕ → Bool) (i : ℕ)
    (hi : i ∈ univ) (k : ℕ) :
    (fun s => expandF univ adj s)^[k] {i} ⊆ (fun s => expandF univ adj s)^[k + 1] {i} := by
  rw [Function.iterate_succ_apply']
  exact subset_expandF univ adj (iterate_expandF_subset_univ univ adj i hi k)

lemma iterate_expandF_le (univ : Finset ℕ) (adj : ℕ → ℕ → Bool) (i : ℕ)
    (hi : i ∈ univ) {k m : ℕ} (h : k ≤ m) :
    (fun s => expandF univ adj s)^[k] {i} ⊆ (fun s => expandF univ adj s)^[m] {i} := by
  induction m with
  | zero =>
    rw [Nat.le_zero.mp h]
  | succ p ih =>
    rcases Nat.lt_or_ge k (p + 1) with h2 | h2
    · exact (ih (Nat.lt_succ_iff.mp h2)).trans
        (iterate_expandF_succ_supset univ adj i hi p)
    · rw [Nat.le_antisymm h h2]

lemma mem_compF_self (univ : Finset ℕ) (adj : ℕ → ℕ → Bool) (i : ℕ) (hi : i ∈ univ) :
    i ∈ compF univ adj i := by
  rw [compF]
  exact iterate_expandF_le univ adj i hi (Nat.zero_le _) (Finset.mem_singleton_self i)

lemma compF_fixed (univ : Finset ℕ) (adj : ℕ → ℕ → Bool) (i : ℕ) (hi : i ∈ univ) :
    expandF univ adj (compF univ adj i) = compF univ adj i := by
  by_cases hfix : ∀ k, k < univ.card → (fun s => expandF univ adj s)^[k + 1] {i} ≠
      (fun s => expandF univ adj s)^[k] {i}
  · exfalso
    have grow : ∀ m, m ≤ univ.card → m + 1 ≤ ((fun s => expandF univ adj s)^[m] {i}).card := by
      intro m
      induction m with
      | zero => intro _; simp
      | succ p ih =>
        intro hp
        have h1 : ((fun s => expandF univ adj s)^[p] {i}).card <
            ((fun s => expandF univ adj s)^[p + 1] {i}).card := by
          apply Finset.card_lt_card
          rw [Finset.ssubset_iff_subset_ne]
          exact ⟨iterate_expandF_succ_supset univ adj i hi p,
            fun hh => hfix p (by omega) hh.symm⟩
        have h2 := ih (by omega)
        omega
    have h3 := grow univ.card le_rfl
    have h4 := Finset.card_le_card (iterate_expandF_subset_univ univ adj i hi univ.card)
    omega
  · push_neg at hfix
    obtain ⟨k, hk, hkfix⟩ := hfix
    have persist : ∀ m, k ≤ m → (fun s => expandF univ adj s)^[m] {i} =
        (fun s => expandF univ adj s)^[k] {i} := by
      intro m
      induction m with
      | zero => intro h; rw [Nat.le_zero.mp h]
      | succ p ih =>
        intro h
        rcases Nat.lt_or_ge k (p + 1) with h2 | h2
        · rw [Function.iterate_succ_apply', ih (Nat.lt_succ_iff.mp h2)]
          have h3 := hkfix
          rw [Function.iterate_succ_apply'] at h3
          exact h3
        · rw [Nat.le_antisymm h h2]
    rw [compF]
    have h4 : (fun s => expandF univ adj s)^[univ.card + 1] {i} =
        (fun s => expandF univ adj s)^[univ.card] {i} := by
      rw [persist (univ.card + 1) (by omega), persist univ.card (by omega)]
    rw [Function.iterate_succ_apply'] at h4
    exact h4

lemma compF_min (univ : Finset ℕ) (adj : ℕ → ℕ → Bool) {i j : ℕ} (hi : i ∈ univ)
    (hj : j ∈ compF univ adj i) : compF univ adj j ⊆ compF univ adj i := by
  rw [compF]
  have key : ∀ k, (fun s => expandF univ adj s)^[k] {j} ⊆ compF univ adj i := by
    intro k
    induction k with
    | zero => simpa using hj
    | succ p ih =>
      rw [Function.iterate_succ_apply']
      calc expandF univ adj ((fun s => expandF univ adj s)^[p] {j})
          ⊆ expandF univ adj (compF univ adj i) := expandF_mono univ adj ih
        _ = compF univ adj i := compF_fixed univ adj i hi
  exact key univ.card

lemma adj_mem_compF (univ : Finset ℕ) (adj : ℕ → ℕ → Bool) {i j : ℕ} (hi : i ∈ univ)
    (hj : j ∈ univ) (h : adj i j = true) : j ∈ compF univ adj i := by
  have h1 : j ∈ expandF univ adj {i} := by
    rw [expandF, Finset.mem_filter]
    exact ⟨hj, Or.inr ⟨i, Finset.mem_singleton_self i, h⟩⟩
  have h2 : (1 : ℕ) ≤ univ.card := Finset.card_pos.mpr ⟨i, hi⟩
  rw [compF]
  exact iterate_expandF_le univ adj i hi h2 h1

lemma mem_compF_symm (univ : Finset ℕ) (adj : ℕ → ℕ → Bool)
    (hsym : ∀ a b, adj a b = adj b a) {i : ℕ} (hi : i ∈ univ) :
    ∀ {j}, j ∈ compF univ adj i → i ∈ compF univ adj j := by
  suffices H : ∀ k, ∀ j, j ∈ (fun s => expandF univ adj s)^[k] {i} → i ∈ compF univ adj j by
    intro j hj
    exact H univ.card j hj
  intro k
  induction k with
  | zero =>
    intro j hj
    rw [Function.iterate_zero_apply, Finset.mem_singleton] at hj
    rw [hj]
    exact mem_compF_self univ adj i hi
  | succ p ih =>
    intro j hj
    rw [Function.iterate_succ_apply', expandF, Finset.mem_filter] at hj
    rcases hj.2 with hjk | ⟨t, htk, hadj⟩
    · exact ih j hjk
    · have htU : t ∈ univ := iterate_expandF_subset_univ univ adj i hi p htk
      have h1 : i ∈ compF univ adj t := ih t htk
      have h2 : t ∈ compF univ adj j := by
        apply adj_mem_compF univ adj hj.1 htU
        rw [hsym]
        exact hadj
      exact compF_min univ adj hj.1 h2 h1

lemma compF_eq (univ : Finset ℕ) (adj : ℕ → ℕ → Bool)
    (hsym : ∀ a b, adj a b = adj b a) {i j : ℕ} (hi : i ∈ univ)
    (hj : j ∈ compF univ adj i) : compF univ adj i = compF univ adj j := by
  have hjU : j ∈ univ := by
    rw [compF] at hj
    exact iterate_expandF_subset_univ univ adj i hi univ.card hj
  have h1 : i ∈ compF univ adj j := mem_compF_symm univ adj hsym hi hj
  exact Finset.Subset.antisymm (compF_min univ adj hjU h1) (compF_min univ adj hi hj)

/-- Minimum of a non-empty integer list (first-reaching cluster id for a
border point); -1 on the empty list (unreached). -/
def minListZ : List ℤ → ℤ
  | [] => -1
  | x :: rest => rest.foldl min x

/-- The feature of index i in the feature matrix (rows are
[mean_lat, mean_lon] pairs). -/
def ptOf (pts : List (ℚ × ℚ)) (i : ℕ) : ℚ × ℚ := pts.getD i (0, 0)

/-- Euclidean eps-neighbourhood test between points i and j (distance at
most eps, compared on squares to stay rational; faithful for the eps > 0
domain sklearn accepts). -/
def adjB (pts : List (ℚ × ℚ)) (eps : ℚ) (i j : ℕ) : Bool :=
  decide (sqDistQ (ptOf pts i) (ptOf pts j) ≤ eps ^ 2)

/-- Core-point test: at least min_samples neighbours (itself included)
within eps. -/
def isCoreB (pts : List (ℚ × ℚ)) (eps : ℚ) (min_samples : ℕ) (i : ℕ) : Bool :=
  decide (min_samples ≤ ((List.range pts.length).filter (fun j => adjB pts eps i j)).length)

/-- Core-to-core adjacency: the edges along which density reachability
chains run. -/
def cadjB (pts : List (ℚ × ℚ)) (eps : ℚ) (min_samples : ℕ) (i j : ℕ) : Bool :=
  isCoreB pts eps min_samples i && isCoreB pts eps min_samples j && adjB pts eps i j

/-- The core component containing i. -/
def compD (pts : List (ℚ × ℚ)) (eps : ℚ) (min_samples : ℕ) (i : ℕ) : Finset ℕ :=
  compF (Finset.range pts.length) (cadjB pts eps min_samples) i

/-- The least core index of i's component: determines the component's
discovery order in the index-ordered seed scan. -/
def compMinD (pts : List (ℚ × ℚ)) (eps : ℚ) (min_samples : ℕ) (i : ℕ) : ℕ :=
  ((List.range pts.length).find? (fun s => decide (s ∈ compD pts eps min_samples i))).getD i

/-- Cluster id of i's component: the number of components whose least core
index is smaller (ids are assigned in discovery order). -/
def clusterIdD (pts : List (ℚ × ℚ)) (eps : ℚ) (min_samples : ℕ) (i : ℕ) : ℤ :=
  (((List.range pts.length).filter (fun s => isCoreB pts eps min_samples s &&
    decide (compMinD pts eps min_samples s = s) &&
    decide (s < compMinD pts eps min_samples i))).length : ℤ)

/-- Modelled from the spec: the label of point i under the
DensityClustering capability of section 4.2 (the source delegates this to
sklearn's DBSCAN, an external collaborator outside src/).  A core point
gets its component's discovery-order id; a non-core point within eps of
some core point gets the id of the first cluster whose expansion reaches
it, which in the index-ordered scan is the smallest id among its adjacent
cores' clusters; every other point is noise, labelled -1. -/
def labelOf (pts : List (ℚ × ℚ)) (eps : ℚ) (min_samples : ℕ) (i : ℕ) : ℤ :=
  if isCoreB pts eps min_samples i then clusterIdD pts eps min_samples i
  else
    let cands := (List.range pts.length).filter
      (fun q => isCoreB pts eps min_samples q && adjB pts eps q i)
    if cands.isEmpty then -1
    else minListZ (cands.map (clusterIdD pts eps min_samples))

/-- Modelled from the spec: the full labelling fit(points, eps,
min_samples) of section 4.2, one label per input row. -/
def dbscanLabels (pts : List (ℚ × ℚ)) (eps : ℚ) (min_samples : ℕ) : List ℤ :=
  (List.range pts.length).map (labelOf pts eps min_samples)

/-- cluster_tracks_by_path (src/scripts/cluster_tracks.py): mean lat/lon
features per track, then DBSCAN.  sklearn's parameter validation rejects
eps <= 0 and min_samples < 1, and its input validation rejects an empty
feature matrix and the NaN features that np.mean of an empty coordinate
list produces - all surfacing as the spec's validation kind. -/
def cluster_tracks_by_path (tracks : List Track) (eps : ℚ) (min_samples : ℕ) :
    Except CoreError (List ℤ) :=
  if eps ≤ 0 then .error .validationError
  else if min_samples = 0 then .error .validationError
  else if tracks = [] then .error .validationError
  else if tracks.any (fun t => decide (t.lat = []) || decide (t.lon = [])) then
    .error .validationError
  else .ok (dbscanLabels (tracks.map trackFeature) eps min_samples)

lemma sqDistQ_symm (p q : ℚ × ℚ) : sqDistQ p q = sqDistQ q p := by
  rw [sqDistQ, sqDistQ]
  ring

lemma cadjB_symm (pts : List (ℚ × ℚ)) (eps : ℚ) (min_samples : ℕ) :
    ∀ a b, cadjB pts eps min_samples a b = cadjB pts eps min_samples b a := by
  intro a b
  rw [cadjB, cadjB]
  have hadj : adjB pts eps a b = adjB pts eps b a := by
    rw [adjB, adjB, sqDistQ_symm]
  rw [hadj, Bool.and_comm (isCoreB pts eps min_samples a) (isCoreB pts eps min_samples b)]

lemma getD_map_range {α : Type} (n : ℕ) (f : ℕ → α) (d : α) (k : ℕ) (hk : k < n) :
    ((List.range n).map f).getD k d = f k := by
  rw [List.getD_eq_getElem?_getD, List.getElem?_map, List.getElem?_range hk]
  rfl

lemma labelOf_congr (pts : List (ℚ × ℚ)) (eps : ℚ) (min_samples : ℕ) (i j : ℕ)
    (hi : i < pts.length) (hj : j < pts.length) (hij : ptOf pts i = ptOf pts j) :
    labelOf pts eps min_samples i = labelOf pts eps min_samples j := by
  have hadj1 : ∀ k, adjB pts eps i k = adjB pts eps j k := fun k => by
    rw [adjB, adjB, hij]
  have hadj2 : ∀ k, adjB pts eps k i = adjB pts eps k j := fun k => by
    rw [adjB, adjB, hij]
  have hcore : isCoreB pts eps min_samples i = isCoreB pts eps min_samples j := by
    rw [isCoreB, isCoreB, List.filter_congr (fun a _ => hadj1 a)]
  by_cases hc : isCoreB pts eps min_samples i = true
  · have hcj : isCoreB pts eps min_samples j = true := by
      rw [← hcore]
      exact hc
    rw [labelOf, labelOf, if_pos hc, if_pos hcj]
    have hdist0 : sqDistQ (ptOf pts j) (ptOf pts j) = 0 := by
      rw [sqDistQ]
      ring
    have hcadj : cadjB pts eps min_samples i j = true := by
      rw [cadjB, hc, hcj, Bool.true_and, Bool.true_and, adjB, hij]
      simp only [decide_eq_true_eq, hdist0]
      positivity
    have hcomp : compD pts eps min_samples i = compD pts eps min_samples j := by
      rw [compD, compD]
      exact compF_eq (Finset.range pts.length) (cadjB pts eps min_samples)
        (cadjB_symm pts eps min_samples) (Finset.mem_range.mpr hi)
        (adj_mem_compF (Finset.range pts.length) (cadjB pts eps min_samples)
          (Finset.mem_range.mpr hi) (Finset.mem_range.mpr hj) hcadj)
    have hmin : compMinD pts eps min_samples i = compMinD pts eps min_samples j := by
      rw [compMinD, compMinD, hcomp]
      have hsome : ((List.range pts.length).find?
          (fun s => decide (s ∈ compD pts eps min_samples j))).isSome := by
        rw [List.find?_isSome]
        refine ⟨j, List.mem_range.mpr hj, ?_⟩
        simp only [decide_eq_true_eq]
        exact mem_compF_self (Finset.range pts.length) (cadjB pts eps min_samples) j
          (Finset.mem_range.mpr hj)
      obtain ⟨v, hv⟩ := Option.isSome_iff_exists.mp hsome
      rw [hv, Option.getD_some, Option.getD_some]
    rw [clusterIdD, clusterIdD, hmin]
  · have hcj : ¬ isCoreB pts eps min_samples j = true := by
      rw [← hcore]
      exact hc
    rw [labelOf, labelOf, if_neg hc, if_neg hcj,
      List.filter_congr (fun a _ => by rw [hadj2 a])]

/-- Claim C9: two tracks with identical lat/lon data placed in the same
collection always receive the same cluster label (for eps > 0 and
min_samples >= 1, on a collection of well-formed tracks). -/
theorem identical_tracks_same_label (tracks : List Track) (eps : ℚ) (min_samples : ℕ)
    (i j : ℕ) (hi : i < tracks.length) (hj : j < tracks.length)
    (hlat : (tracks.getD i emptyTrack).lat = (tracks.getD j emptyTrack).lat)
    (hlon : (tracks.getD i emptyTrack).lon = (tracks.getD j emptyTrack).lon)
    (hvalid : ∀ t ∈ tracks, t.lat ≠ [] ∧ t.lon ≠ [])
    (heps : 0 < eps) (hms : 1 ≤ min_samples) :
    ∃ labs, cluster_tracks_by_path tracks eps min_samples = .ok labs ∧
      labs.getD i 0 = labs.getD j 0 := by
  have hne : tracks ≠ [] := by
    intro h
    rw [h] at hi
    simp at hi
  have hany : tracks.any (fun t => decide (t.lat = []) || decide (t.lon = [])) = false := by
    rw [Bool.eq_false_iff, Ne, List.any_eq_true]
    rintro ⟨t, ht, hd⟩
    simp only [Bool.or_eq_true, decide_eq_true_eq] at hd
    rcases hd with h1 | h1
    · exact (hvalid t ht).1 h1
    · exact (hvalid t ht).2 h1
  rw [cluster_tracks_by_path, if_neg (not_le.mpr heps),
    if_neg (by omega : ¬ min_samples = 0), if_neg hne, hany]
  simp only [Bool.false_eq_true, if_false]
  refine ⟨_, rfl, ?_⟩
  have hlen : (tracks.map trackFeature).length = tracks.length := List.length_map _ _
  have hpt : ∀ k, k < tracks.length →
      ptOf (tracks.map trackFeature) k = trackFeature (tracks.getD k emptyTrack) := by
    intro k hk
    have h1 : tracks[k]? = some (tracks.getD k emptyTrack) := by
      rw [List.getElem?_eq_getElem hk]
      congr 1
      rw [List.getD_eq_getElem?_getD, List.getElem?_eq_getElem hk]
      rfl
    rw [ptOf, List.getD_eq_getElem?_getD, List.getElem?_map, h1]
    rfl
  rw [dbscanLabels, hlen, getD_map_range tracks.length _ 0 i hi,
    getD_map_range tracks.length _ 0 j hj]
  apply labelOf_congr (tracks.map trackFeature) eps min_samples i j
    (by rw [hlen]; exact hi) (by rw [hlen]; exact hj)
  rw [hpt i hi, hpt j hj, trackFeature, trackFeature, hlat, hlon]

/-- Witness for C9: indices 0 and 2 of a three-track collection carry the
same path, eps = 1, min_samples = 2. -/
theorem identical_tracks_same_label_witness :
    ∃ labs, cluster_tracks_by_path [trackA, trackB, trackA] 1 2 = .ok labs ∧
      labs.getD 0 0 = labs.getD 2 0 :=
  identical_tracks_same_label [trackA, trackB, trackA] 1 2 0 2
    (by decide) (by decide) (by decide) (by decide) (by decide)
    (by norm_num) (by decide)
